import Mathlib

/-!
Verification of the fragment-reconciliation pipeline of `analyze.py`
(github-repo-stats).

The script reads several CSV "fragments" of a daily traffic time series,
checks that they all carry the same column set, concatenates them and
aggregates by timestamp taking the per-column maximum
(`dfa.groupby(dfa.index).max()`), then renders charts and a report into a
freshly (re)created output directory.

We embed the data model and the operations shallowly:

* a `Fragment` is a header (list of column names, from the CSV header) plus
  rows, each row a timestamp (a day, as `Nat`) together with an association
  list from column name to integer counter value;
* `reconcile` is the translation of `pd.concat` + `groupby(index).max()`:
  the output columns are the union of all input headers in order of first
  appearance (as `pd.concat` aligns columns by name), the output rows are
  indexed by the sorted set of all timestamps, and each cell is the maximum
  of all values observed for that (timestamp, column) pair, missing cells
  being skipped exactly as `max()` skips `NaN`;
* the schema check, the CSV loader, the argument parsing (including the
  removal and re-creation of the output directory), and the
  column-dropping presentation step are translated into `Except`-valued
  functions over an explicit `RunState` describing the output artifacts.
-/

namespace GRS

/-- A loaded time-series fragment: the CSV header (column names other than
the `time_iso8601` index) and the rows, each a parsed timestamp with the
row's named integer counter values in header order. -/
structure Fragment where
  cols : List String
  rows : List (Nat × List (String × Int))
deriving DecidableEq

/-- Python set equality of two column lists, as in
`set(df.columns) != column_names_seen`. -/
def setEqL (a b : List String) : Bool :=
  a.all (fun c => b.contains c) && b.all (fun c => a.contains c)

/-- Remove duplicates keeping the first occurrence; `seen` are the names
already emitted.  This is how `pd.concat` forms the union of the input
frames' column sets: order of first appearance. -/
def dedupFirstAux (seen : List String) : List String → List String
  | [] => []
  | c :: cs =>
    if seen.contains c then dedupFirstAux seen cs
    else c :: dedupFirstAux (c :: seen) cs

/-- Column set of the concatenated frame `pd.concat(dfs)`: union of all
fragment headers in order of first appearance. -/
def unionCols (frags : List Fragment) : List String :=
  dedupFirstAux [] (frags.flatMap Fragment.cols)

/-- All rows of all fragments, concatenated — the rows of `pd.concat(dfs)`. -/
def allRows (frags : List Fragment) : List (Nat × List (String × Int)) :=
  frags.flatMap Fragment.rows

/-- The multiset of values observed for column `c` at timestamp `t` across
a row list: the column `c` of the `groupby` group of `t`.  Rows that carry
no value for `c` (alignment `NaN`s) are skipped, as `max()` skips `NaN`. -/
def obsAt (rows : List (Nat × List (String × Int))) (t : Nat) (c : String) :
    List Int :=
  rows.filterMap (fun r => if r.1 = t then r.2.lookup c else none)

/-- Maximum of a list of observed values (`none` on the empty list). -/
def obsMax : List Int → Option Int
  | [] => none
  | x :: xs => some (xs.foldl max x)

/-- Ascending timestamp order, as `groupby` sorts group keys. -/
def sortTS (l : List Nat) : List Nat :=
  l.insertionSort (· ≤ ·)

/-- The reconciliation engine:
`df_agg = pd.concat(dfs).groupby(index).max()` — one row per distinct
timestamp, sorted ascending, each cell the maximum of all values observed
for that (timestamp, column) pair. -/
def reconcile (frags : List Fragment) : Fragment :=
  let cols := unionCols frags
  let all := allRows frags
  { cols := cols
    rows := (sortTS ((all.map Prod.fst).dedup)).map (fun t =>
      (t, cols.map (fun c => (c, (obsMax (obsAt all t c)).getD 0)))) }

/-- Value of a series at a (timestamp, column) cell: `df.loc[t, c]`. -/
def seriesVal (s : Fragment) (t : Nat) (c : String) : Option Int :=
  (s.rows.find? (fun r => r.1 == t)).bind (fun r => r.2.lookup c)

/-! ## Schema check

Translation of the loop body

```
if column_names_seen and set(df.columns) != column_names_seen:
    log.error("columns seen so far: %s", column_names_seen)
    log.error("columns in %s: %s", p, df.columns)
    sys.exit(1)
column_names_seen.update(df.columns)
```

The `sys.exit(1)` together with the two logged values is modelled as a
`SchemaMismatchError` carrying the expected column set, the offending
fragment's column set and its source path. -/

/-- The data logged when the schema check fails: the column set seen so
far, the offending fragment's column set, and its source path. -/
structure SchemaMismatchError where
  expected : List String
  actual : List String
  source : String
deriving DecidableEq

/-- Python set union `column_names_seen.update(df.columns)` over the list
model: append the names not already seen. -/
def updateSeen (seen cols : List String) : List String :=
  seen ++ cols.filter (fun c => !seen.contains c)

/-- The schema-check loop over loaded fragments paired with their source
paths; `seen` is `column_names_seen`. -/
def schemaGuardAux (seen : List String) :
    List (String × Fragment) → Except SchemaMismatchError Unit
  | [] => .ok ()
  | (p, f) :: rest =>
    if !seen.isEmpty && !setEqL f.cols seen then .error ⟨seen, f.cols, p⟩
    else schemaGuardAux (updateSeen seen f.cols) rest

/-- The schema gate over the whole input batch. -/
def schemaGuard (srcs : List (String × Fragment)) :
    Except SchemaMismatchError Unit :=
  schemaGuardAux [] srcs

/-- Schema gate followed by the merge: an error produces no series. -/
def processFragments (srcs : List (String × Fragment)) :
    Except SchemaMismatchError Fragment :=
  match schemaGuard srcs with
  | .error e => .error e
  | .ok _ => .ok (reconcile (srcs.map Prod.snd))

/-- The same check as `schemaGuardAux`, as a plain pass/fail predicate on
fragments (source paths only feed the error report). -/
def schemaPassAux (seen : List String) : List Fragment → Bool
  | [] => true
  | f :: rest =>
    if !seen.isEmpty && !setEqL f.cols seen then false
    else schemaPassAux (updateSeen seen f.cols) rest

/-- Whether a fragment batch passes the schema check. -/
def schemaPass (frags : List Fragment) : Bool :=
  schemaPassAux [] frags

/-! ## Loader

`pd.read_csv(p, index_col=["time_iso8601"], date_parser=...)`: each raw
CSV row carries a raw timestamp string and the counter values in header
order.  Timestamp parsing (`pd.to_datetime`) is a parameter
`parseTime : String → Option Nat`; an unparseable timestamp raises, which
is modelled as a `ParseError` naming the source file and the offending
raw timestamp. -/

/-- One raw CSV data row: the raw `time_iso8601` cell and the counter
values in header order. -/
structure RawRow where
  time : String
  vals : List Int
deriving DecidableEq

/-- One raw CSV document: header (without the index column) and rows. -/
structure RawDoc where
  cols : List String
  rows : List RawRow
deriving DecidableEq

/-- The exception raised when a raw timestamp cannot be parsed: the source
path and the offending row's raw timestamp cell. -/
structure ParseError where
  source : String
  badTime : String
deriving DecidableEq

/-- Parse all rows of one document; the first unparseable timestamp
aborts the load of the whole document. -/
def loadRows (parseTime : String → Option Nat) (src : String)
    (cols : List String) :
    List RawRow → Except ParseError (List (Nat × List (String × Int)))
  | [] => .ok []
  | r :: rs =>
    match parseTime r.time with
    | none => .error ⟨src, r.time⟩
    | some t =>
      match loadRows parseTime src cols rs with
      | .error e => .error e
      | .ok rest => .ok ((t, cols.zip r.vals) :: rest)

/-- Load one fragment from a raw document (`pd.read_csv`). -/
def loadFragment (parseTime : String → Option Nat) (src : String)
    (d : RawDoc) : Except ParseError Fragment :=
  match loadRows parseTime src d.cols d.rows with
  | .error e => .error e
  | .ok rows => .ok ⟨d.cols, rows⟩

/-! ## Run model

`parse_args` (including the output-directory handling) followed by the
load/check loop, the merge, the presentation step (`df.drop(columns=...)`,
which raises `KeyError` on a missing label), and the chart/report
writes. -/

/-- State of the configured output-directory path on disk. -/
inductive PathState
  | absent
  | file
  | dir (contents : List String)
deriving DecidableEq

/-- Output artifacts of a run: the output-directory path's state, and
whether the chart file / the report files have been written. -/
structure RunState where
  outDir : PathState
  chartWritten : Bool
  reportWritten : Bool
deriving DecidableEq

/-- The ways a run terminates unsuccessfully:
`emptyInput` — `argparse` rejects an empty `csvpath` (`nargs="+"`);
`outPathNotDir` — the output path exists but is not a directory;
`parse` — `pd.to_datetime` raised on a raw timestamp;
`schema` — the column-set check failed (`sys.exit(1)`);
`missingColumn` — `df.drop(columns=...)` raised `KeyError`. -/
inductive RunError
  | emptyInput
  | outPathNotDir
  | parse (e : ParseError)
  | schema (e : SchemaMismatchError)
  | missingColumn (c : String)
deriving DecidableEq

/-- Whether an error came from the fragment loader or the schema guard. -/
def RunError.isLoadOrSchema : RunError → Bool
  | .parse _ => true
  | .schema _ => true
  | _ => false

/-- The output-directory handling in `parse_args`: an existing
non-directory is an error; an existing directory is removed
(`shutil.rmtree`); then an empty directory is created (`os.makedirs`). -/
def parseArgsFS (st : RunState) : Except RunError RunState :=
  match st.outDir with
  | .file => .error .outPathNotDir
  | _ => .ok { st with outDir := .dir [] }

/-- `df.drop(columns=cs)`: removes the listed columns, raising `KeyError`
(naming a missing label) if any of them is absent. -/
def dropColumns (s : Fragment) (cs : List String) : Except RunError Fragment :=
  if cs.all (fun c => s.cols.contains c) then
    .ok ⟨s.cols.filter (fun c => !cs.contains c),
         s.rows.map (fun r => (r.1, r.2.filter (fun kv => !cs.contains kv.1)))⟩
  else
    .error (.missingColumn ((cs.find? (fun c => !s.cols.contains c)).getD ""))

/-- The load loop of `main`: parse each CSV in order, checking its column
set against the columns seen so far before moving on. -/
def loadLoop (parseTime : String → Option Nat) (seen : List String)
    (acc : List Fragment) :
    List (String × RawDoc) → Except RunError (List Fragment)
  | [] => .ok acc.reverse
  | (p, d) :: rest =>
    match loadFragment parseTime p d with
    | .error e => .error (.parse e)
    | .ok f =>
      if !seen.isEmpty && !setEqL f.cols seen then
        .error (.schema ⟨seen, f.cols, p⟩)
      else loadLoop parseTime (updateSeen seen f.cols) (f :: acc) rest

/-- The body of `main` after `parse_args`: load and check all fragments,
merge, build the two per-topic frames by dropping the other topic's
columns, then write the chart (into the working directory) and the report
files (into the output directory). -/
def mainAfterArgs (parseTime : String → Option Nat)
    (docs : List (String × RawDoc)) (st : RunState) :
    Except RunError Fragment × RunState :=
  match loadLoop parseTime [] [] docs with
  | .error e => (.error e, st)
  | .ok frags =>
    match dropColumns (reconcile frags) ["clones_unique", "clones_total"] with
    | .error e => (.error e, st)
    | .ok _aggViews =>
      match dropColumns (reconcile frags) ["views_unique", "views_total"] with
      | .error e => (.error e, st)
      | .ok _aggClones =>
        (.ok (reconcile frags),
         { st with
             chartWritten := true
             reportWritten := true
             outDir := .dir ["report.md", "report.html", "resources"] })

/-- One whole invocation: `argparse` rejects an empty `csvpath` list
before anything else; then the output directory is removed and re-created
inside `parse_args`; then the fragments are read. -/
def runMain (parseTime : String → Option Nat)
    (docs : List (String × RawDoc)) (st : RunState) :
    Except RunError Fragment × RunState :=
  if docs.isEmpty then (.error .emptyInput, st)
  else
    match parseArgsFS st with
    | .error e => (.error e, st)
    | .ok st1 => mainAfterArgs parseTime docs st1

/-! ## Helper lemmas -/

lemma contains_eq_mem (l : List String) (a : String) :
    l.contains a = true ↔ a ∈ l := by
  simp [List.contains]

lemma setEqL_iff (a b : List String) :
    setEqL a b = true ↔ (∀ c ∈ a, c ∈ b) ∧ ∀ c ∈ b, c ∈ a := by
  simp [setEqL, List.all_eq_true, List.contains]

lemma setEqL_refl (a : List String) : setEqL a a = true := by
  rw [setEqL_iff]; exact ⟨fun _ h => h, fun _ h => h⟩

lemma mem_dedupFirstAux (seen l : List String) (a : String) :
    a ∈ dedupFirstAux seen l ↔ a ∈ l ∧ a ∉ seen := by
  induction l generalizing seen with
  | nil => simp [dedupFirstAux]
  | cons c cs ih =>
    by_cases hc : seen.contains c
    · have hcm : c ∈ seen := (contains_eq_mem _ _).1 hc
      rw [dedupFirstAux, if_pos hc, ih]
      simp only [List.mem_cons]
      constructor
      · rintro ⟨h1, h2⟩; exact ⟨Or.inr h1, h2⟩
      · rintro ⟨h1 | h1, h2⟩
        · exact absurd (h1 ▸ hcm) h2
        · exact ⟨h1, h2⟩
    · have hcn : c ∉ seen := fun h => hc ((contains_eq_mem _ _).2 h)
      rw [dedupFirstAux, if_neg hc]
      simp only [List.mem_cons, ih]
      constructor
      · rintro (rfl | ⟨h1, h2⟩)
        · exact ⟨Or.inl rfl, hcn⟩
        · exact ⟨Or.inr h1, fun hs => h2 (Or.inr hs)⟩
      · rintro ⟨rfl | h1, h2⟩
        · exact Or.inl rfl
        · by_cases hac : a = c
          · exact Or.inl hac
          · exact Or.inr ⟨h1, fun hs => hs.elim hac h2⟩

lemma nodup_dedupFirstAux (seen l : List String) :
    (dedupFirstAux seen l).Nodup := by
  induction l generalizing seen with
  | nil => simp [dedupFirstAux]
  | cons c cs ih =>
    by_cases hc : seen.contains c
    · rw [dedupFirstAux, if_pos hc]; exact ih seen
    · rw [dedupFirstAux, if_neg hc]
      refine List.nodup_cons.2 ⟨?_, ih (c :: seen)⟩
      intro hmem
      exact ((mem_dedupFirstAux _ _ _).1 hmem).2 (List.mem_cons_self c seen)

lemma dedupFirstAux_eq_self (seen l : List String) (h : ∀ a ∈ l, a ∉ seen)
    (hn : l.Nodup) : dedupFirstAux seen l = l := by
  induction l generalizing seen with
  | nil => rfl
  | cons c cs ih =>
    have hcn : ¬ seen.contains c = true := fun hh =>
      h c (List.mem_cons_self _ _) ((contains_eq_mem _ _).1 hh)
    rw [dedupFirstAux, if_neg hcn]
    congr 1
    refine ih (c :: seen) ?_ (List.nodup_cons.1 hn).2
    intro a ha hmem
    rcases List.mem_cons.1 hmem with rfl | hs
    · exact (List.nodup_cons.1 hn).1 ha
    · exact h a (List.mem_cons_of_mem _ ha) hs

lemma foldl_max_mem (x : Int) (xs : List Int) : xs.foldl max x ∈ x :: xs := by
  induction xs generalizing x with
  | nil => simp
  | cons y ys ih =>
    rcases List.mem_cons.1 (ih (max x y)) with h | h
    · rcases max_choice x y with h' | h'
      · rw [List.foldl_cons, h, h']; exact List.mem_cons_self _ _
      · rw [List.foldl_cons, h, h']
        exact List.mem_cons_of_mem _ (List.mem_cons_self _ _)
    · rw [List.foldl_cons]
      exact List.mem_cons_of_mem _ (List.mem_cons_of_mem _ h)

lemma le_foldl_max (x : Int) (xs : List Int) :
    ∀ z ∈ x :: xs, z ≤ xs.foldl max x := by
  induction xs generalizing x with
  | nil =>
    intro z hz
    rcases List.mem_cons.1 hz with rfl | h
    · exact le_refl _
    · cases h
  | cons y ys ih =>
    intro z hz
    rw [List.foldl_cons]
    have h2 := ih (max x y)
    rcases List.mem_cons.1 hz with he | hz'
    · rw [he]
      exact le_trans (le_max_left x y) (h2 _ (List.mem_cons_self _ _))
    · rcases List.mem_cons.1 hz' with he | hz''
      · rw [he]
        exact le_trans (le_max_right x y) (h2 _ (List.mem_cons_self _ _))
      · exact h2 _ (List.mem_cons_of_mem _ hz'')

lemma obsMax_spec (l : List Int) (h : l ≠ []) :
    ∃ m, obsMax l = some m ∧ m ∈ l ∧ ∀ v ∈ l, v ≤ m := by
  match l with
  | [] => exact absurd rfl h
  | x :: xs => exact ⟨xs.foldl max x, rfl, foldl_max_mem x xs, le_foldl_max x xs⟩

lemma obsMax_eq_of_perm {l₁ l₂ : List Int} (p : l₁.Perm l₂) :
    obsMax l₁ = obsMax l₂ := by
  cases l₁ with
  | nil => rw [p.symm.eq_nil]
  | cons x xs =>
    cases l₂ with
    | nil => exact absurd p.eq_nil (by simp)
    | cons y ys =>
      obtain ⟨m₁, hm₁, hmem₁, hub₁⟩ := obsMax_spec (x :: xs) (by simp)
      obtain ⟨m₂, hm₂, hmem₂, hub₂⟩ := obsMax_spec (y :: ys) (by simp)
      rw [hm₁, hm₂, le_antisymm (hub₂ _ (p.mem_iff.1 hmem₁)) (hub₁ _ (p.mem_iff.2 hmem₂))]

lemma sortTS_sorted (l : List Nat) : List.Sorted (· ≤ ·) (sortTS l) :=
  List.sorted_insertionSort _ l

lemma sortTS_perm (l : List Nat) : (sortTS l).Perm l :=
  List.perm_insertionSort _ l

lemma mem_sortTS (l : List Nat) (a : Nat) : a ∈ sortTS l ↔ a ∈ l :=
  (sortTS_perm l).mem_iff

lemma sortTS_eq_of_perm {l₁ l₂ : List Nat} (p : l₁.Perm l₂) :
    sortTS l₁ = sortTS l₂ :=
  List.eq_of_perm_of_sorted ((sortTS_perm l₁).trans (p.trans (sortTS_perm l₂).symm))
    (sortTS_sorted l₁) (sortTS_sorted l₂)

lemma sortTS_nodup (l : List Nat) (h : l.Nodup) : (sortTS l).Nodup :=
  (sortTS_perm l).nodup_iff.2 h

lemma lookup_map_pair (c : String) (cs : List String) (g : String → Int)
    (h : c ∈ cs) :
    (cs.map (fun c' => (c', g c'))).lookup c = some (g c) := by
  induction cs with
  | nil => cases h
  | cons d ds ih =>
    by_cases hd : c = d
    · subst hd; simp [List.lookup_cons]
    · rcases List.mem_cons.1 h with rfl | h'
      · exact absurd rfl hd
      · simp only [List.map_cons, List.lookup_cons]
        have hbeq : (c == d) = false := by simp [hd]
        rw [hbeq]
        exact ih h'

lemma lookup_map_pair_none (c : String) (cs : List String) (g : String → Int)
    (h : c ∉ cs) :
    (cs.map (fun c' => (c', g c'))).lookup c = none := by
  induction cs with
  | nil => rfl
  | cons d ds ih =>
    have hd : c ≠ d := fun hh => h (hh ▸ List.mem_cons_self _ _)
    simp only [List.map_cons, List.lookup_cons]
    have hbeq : (c == d) = false := by simp [hd]
    rw [hbeq]
    exact ih (fun hh => h (List.mem_cons_of_mem _ hh))

lemma find?_map_ts (t : Nat) (ts : List Nat) (g : Nat → List (String × Int))
    (h : t ∈ ts) :
    (ts.map (fun t' => (t', g t'))).find? (fun r => r.1 == t) = some (t, g t) := by
  induction ts with
  | nil => cases h
  | cons u us ih =>
    by_cases hu : u = t
    · subst hu; simp [List.find?_cons]
    · simp only [List.map_cons, List.find?_cons]
      have hbeq : ((u, g u).1 == t) = false := by simp [hu]
      rw [hbeq]
      refine ih ?_
      rcases List.mem_cons.1 h with rfl | h'
      · exact absurd rfl hu
      · exact h'

/-- Timestamp list of a series (the index column). -/
def tsOf (s : Fragment) : List Nat := s.rows.map Prod.fst

lemma reconcile_cols (frags : List Fragment) :
    (reconcile frags).cols = unionCols frags := rfl

lemma reconcile_rows_eq (frags : List Fragment) :
    (reconcile frags).rows =
      (sortTS ((allRows frags).map Prod.fst).dedup).map (fun t =>
        (t, (unionCols frags).map (fun c =>
              (c, (obsMax (obsAt (allRows frags) t c)).getD 0)))) := rfl

lemma tsOf_reconcile (frags : List Fragment) :
    tsOf (reconcile frags) = sortTS ((allRows frags).map Prod.fst).dedup := by
  rw [tsOf, reconcile_rows_eq, List.map_map]
  exact List.map_id _

lemma mem_tsOf_reconcile (frags : List Fragment) (t : Nat) :
    t ∈ tsOf (reconcile frags) ↔ t ∈ (allRows frags).map Prod.fst := by
  rw [tsOf_reconcile, mem_sortTS, List.mem_dedup]

lemma nodup_tsOf_reconcile (frags : List Fragment) :
    (tsOf (reconcile frags)).Nodup := by
  rw [tsOf_reconcile]; exact sortTS_nodup _ (List.nodup_dedup _)

lemma mem_unionCols (frags : List Fragment) (c : String) :
    c ∈ unionCols frags ↔ ∃ f ∈ frags, c ∈ f.cols := by
  rw [unionCols, mem_dedupFirstAux]
  simp [List.mem_flatMap]

lemma seriesVal_reconcile (frags : List Fragment) (t : Nat) (c : String)
    (ht : t ∈ (allRows frags).map Prod.fst) (hc : c ∈ unionCols frags) :
    seriesVal (reconcile frags) t c =
      some ((obsMax (obsAt (allRows frags) t c)).getD 0) := by
  have hts : t ∈ sortTS ((allRows frags).map Prod.fst).dedup := by
    rw [mem_sortTS, List.mem_dedup]; exact ht
  rw [seriesVal, reconcile_rows_eq, find?_map_ts t _ _ hts, Option.some_bind]
  exact lookup_map_pair c _ _ hc

lemma seriesVal_reconcile_of_not_mem_ts (frags : List Fragment) (t : Nat)
    (c : String) (ht : t ∉ (allRows frags).map Prod.fst) :
    seriesVal (reconcile frags) t c = none := by
  rw [seriesVal]
  have hnone : (reconcile frags).rows.find? (fun r => r.1 == t) = none := by
    rw [List.find?_eq_none]
    intro r hr hbeq
    rw [reconcile_rows_eq] at hr
    obtain ⟨t', ht', he⟩ := List.mem_map.1 hr
    have : t' = t := by
      have := he ▸ hbeq
      simpa using this
    exact ht (List.mem_dedup.1 ((mem_sortTS _ _).1 (this ▸ ht')))
  rw [hnone, Option.none_bind]

lemma seriesVal_reconcile_of_not_mem_col (frags : List Fragment) (t : Nat)
    (c : String) (hc : c ∉ unionCols frags) :
    seriesVal (reconcile frags) t c = none := by
  rw [seriesVal]
  cases hf : (reconcile frags).rows.find? (fun r => r.1 == t) with
  | none => rfl
  | some r =>
    have hr := List.mem_of_find?_eq_some hf
    rw [reconcile_rows_eq] at hr
    obtain ⟨t', _, he⟩ := List.mem_map.1 hr
    rw [Option.some_bind, ← he]
    exact lookup_map_pair_none c _ _ hc

lemma obsAt_perm {r₁ r₂ : List (Nat × List (String × Int))} (p : r₁.Perm r₂)
    (t : Nat) (c : String) : (obsAt r₁ t c).Perm (obsAt r₂ t c) :=
  p.filterMap _

/-- `g` is `f` with its rows permuted. -/
def FragRowPerm (f g : Fragment) : Prop :=
  f.cols = g.cols ∧ f.rows.Perm g.rows

lemma allRows_perm_of_forall₂ {l₁ l₂ : List Fragment}
    (h : List.Forall₂ FragRowPerm l₁ l₂) : (allRows l₁).Perm (allRows l₂) := by
  induction h with
  | nil => rfl
  | cons hfg _ ih =>
    simp only [allRows, List.flatMap_cons] at *
    exact hfg.2.append ih

lemma allRows_perm_of_perm {l₁ l₂ : List Fragment} (h : l₁.Perm l₂) :
    (allRows l₁).Perm (allRows l₂) :=
  h.flatMap_right _

lemma cols_flatMap_of_forall₂ {l₁ l₂ : List Fragment}
    (h : List.Forall₂ FragRowPerm l₁ l₂) :
    l₁.flatMap Fragment.cols = l₂.flatMap Fragment.cols := by
  induction h with
  | nil => rfl
  | cons hfg _ ih =>
    simp only [List.flatMap_cons]
    rw [hfg.1, ih]

lemma mem_unionCols_iff_of_perms {l₁ l₂ mid : List Fragment}
    (h1 : List.Forall₂ FragRowPerm l₁ mid) (h2 : mid.Perm l₂) (c : String) :
    c ∈ unionCols l₁ ↔ c ∈ unionCols l₂ := by
  rw [unionCols, unionCols, mem_dedupFirstAux, mem_dedupFirstAux,
    cols_flatMap_of_forall₂ h1]
  exact and_congr_left' (h2.flatMap_right Fragment.cols).mem_iff

/-! ## Example fragments (the scenario of the specification: fragment A
has rows {2020-12-01: 10, 2020-12-07: 73}; fragment B has rows
{2020-12-05: 4, 2020-12-07: 18}). -/

/-- Example fragment A: {2020-12-01: 10, 2020-12-07: 73}. -/
def exFragA : Fragment :=
  ⟨["clones_total"],
   [(20201201, [("clones_total", 10)]), (20201207, [("clones_total", 73)])]⟩

/-- Example fragment B: {2020-12-05: 4, 2020-12-07: 18}. -/
def exFragB : Fragment :=
  ⟨["clones_total"],
   [(20201205, [("clones_total", 4)]), (20201207, [("clones_total", 18)])]⟩

/-! ## Claims -/

/-- C1: for every timestamp `t` and counter column `c` of the merged
frame, the reconciled series' value at `(t, c)` is the maximum over the
full multiset of observations for that pair across all rows of all input
fragments (intra-fragment duplicate timestamps included, since `obsAt`
ranges over the concatenation of all fragments' row lists); in
particular, on the spec's example fragments the reconciled value for
2020-12-07 is 73, not 18. -/
theorem reconcile_pointwise_max :
    (∀ (frags : List Fragment) (t : Nat) (c : String),
        c ∈ unionCols frags → obsAt (allRows frags) t c ≠ [] →
        ∃ m, seriesVal (reconcile frags) t c = some m ∧
          m ∈ obsAt (allRows frags) t c ∧
          ∀ v ∈ obsAt (allRows frags) t c, v ≤ m) ∧
    seriesVal (reconcile [exFragA, exFragB]) 20201207 "clones_total" = some 73 := by
  constructor
  · intro frags t c hc hobs
    obtain ⟨m, hm, hmem, hub⟩ := obsMax_spec _ hobs
    have ht : t ∈ (allRows frags).map Prod.fst := by
      obtain ⟨v, hv⟩ := List.exists_mem_of_ne_nil _ hobs
      rw [obsAt] at hv
      obtain ⟨r, hr, hfr⟩ := List.mem_filterMap.1 hv
      by_cases hrt : r.1 = t
      · exact List.mem_map.2 ⟨r, hr, hrt⟩
      · rw [if_neg hrt] at hfr
        cases hfr
    refine ⟨m, ?_, hmem, hub⟩
    rw [seriesVal_reconcile frags t c ht hc, hm, Option.getD_some]
  · rfl

/-- Witness for C1: the spec's example, where 2020-12-07 is observed with
values 73 (fragment A) and 18 (fragment B). -/
theorem reconcile_pointwise_max_witness :
    ("clones_total" ∈ unionCols [exFragA, exFragB]) ∧
    (obsAt (allRows [exFragA, exFragB]) 20201207 "clones_total" ≠ []) ∧
    (∃ m, seriesVal (reconcile [exFragA, exFragB]) 20201207 "clones_total" = some m ∧
      m ∈ obsAt (allRows [exFragA, exFragB]) 20201207 "clones_total" ∧
      ∀ v ∈ obsAt (allRows [exFragA, exFragB]) 20201207 "clones_total", v ≤ m) :=
  ⟨by decide, by decide,
   reconcile_pointwise_max.1 [exFragA, exFragB] 20201207 "clones_total"
     (by decide) (by decide)⟩

/-- C2: for every fragment batch passing the schema check, the merge is
invariant (same timestamp index and same value at every cell) under any
permutation of the fragment list together with any permutation of the
rows within each fragment. -/
theorem reconcile_order_independent (frags mid frags' : List Fragment)
    (_hs : schemaPass frags = true)
    (h1 : List.Forall₂ FragRowPerm frags mid) (h2 : mid.Perm frags') :
    tsOf (reconcile frags) = tsOf (reconcile frags') ∧
    ∀ t c, seriesVal (reconcile frags) t c = seriesVal (reconcile frags') t c := by
  have hall : (allRows frags).Perm (allRows frags') :=
    (allRows_perm_of_forall₂ h1).trans (allRows_perm_of_perm h2)
  have hts : tsOf (reconcile frags) = tsOf (reconcile frags') := by
    rw [tsOf_reconcile, tsOf_reconcile]
    exact sortTS_eq_of_perm (hall.map _).dedup
  refine ⟨hts, fun t c => ?_⟩
  by_cases ht : t ∈ (allRows frags).map Prod.fst
  · have ht' : t ∈ (allRows frags').map Prod.fst := (hall.map _).mem_iff.1 ht
    by_cases hc : c ∈ unionCols frags
    · have hc' : c ∈ unionCols frags' := (mem_unionCols_iff_of_perms h1 h2 c).1 hc
      rw [seriesVal_reconcile frags t c ht hc, seriesVal_reconcile frags' t c ht' hc',
        obsMax_eq_of_perm (obsAt_perm hall t c)]
    · have hc' : c ∉ unionCols frags' := fun hh =>
        hc ((mem_unionCols_iff_of_perms h1 h2 c).2 hh)
      rw [seriesVal_reconcile_of_not_mem_col frags t c hc,
        seriesVal_reconcile_of_not_mem_col frags' t c hc']
  · have ht' : t ∉ (allRows frags').map Prod.fst := fun hh =>
      ht ((hall.map _).mem_iff.2 hh)
    rw [seriesVal_reconcile_of_not_mem_ts frags t c ht,
      seriesVal_reconcile_of_not_mem_ts frags' t c ht']

/-- Example fragment A with its two rows swapped. -/
def exFragArev : Fragment :=
  ⟨["clones_total"],
   [(20201207, [("clones_total", 73)]), (20201201, [("clones_total", 10)])]⟩

/-- Witness for C2: permuting the rows of fragment A and then swapping
the two fragments leaves the reconciled series pointwise unchanged. -/
theorem reconcile_order_independent_witness :
    schemaPass [exFragA, exFragB] = true ∧
    (tsOf (reconcile [exFragA, exFragB]) = tsOf (reconcile [exFragB, exFragArev]) ∧
     ∀ t c, seriesVal (reconcile [exFragA, exFragB]) t c =
       seriesVal (reconcile [exFragB, exFragArev]) t c) :=
  ⟨by decide,
   reconcile_order_independent [exFragA, exFragB] [exFragArev, exFragB]
     [exFragB, exFragArev] (by decide)
     (.cons ⟨rfl, by decide⟩ (.cons ⟨rfl, by decide⟩ .nil))
     (by decide)⟩

/-- C3: for every fragment batch passing the schema check, the
reconciled series' timestamp set is the union of the input fragments'
timestamp sets, and its timestamp index has no duplicate — exactly one
row per distinct timestamp. -/
theorem reconcile_timestamp_union (frags : List Fragment)
    (_hs : schemaPass frags = true) :
    (∀ t, t ∈ tsOf (reconcile frags) ↔ ∃ f ∈ frags, t ∈ tsOf f) ∧
    (tsOf (reconcile frags)).Nodup := by
  refine ⟨fun t => ?_, nodup_tsOf_reconcile frags⟩
  rw [mem_tsOf_reconcile]
  simp only [tsOf, List.mem_map, allRows, List.mem_flatMap]
  constructor
  · rintro ⟨r, ⟨f, hf, hr⟩, hrt⟩
    exact ⟨f, hf, r, hr, hrt⟩
  · rintro ⟨f, hf, r, hr, hrt⟩
    exact ⟨r, ⟨f, hf, hr⟩, hrt⟩

/-- Witness for C3 on the spec's example fragments. -/
theorem reconcile_timestamp_union_witness :
    schemaPass [exFragA, exFragB] = true ∧
    ((∀ t, t ∈ tsOf (reconcile [exFragA, exFragB]) ↔
       ∃ f ∈ [exFragA, exFragB], t ∈ tsOf f) ∧
     (tsOf (reconcile [exFragA, exFragB])).Nodup) :=
  ⟨by decide, reconcile_timestamp_union [exFragA, exFragB] (by decide)⟩

lemma fragment_eq_of {a b : Fragment} (h1 : a.cols = b.cols)
    (h2 : a.rows = b.rows) : a = b := by
  cases a; cases b; cases h1; cases h2; rfl

lemma allRows_singleton (s : Fragment) : allRows [s] = s.rows := by
  simp [allRows]

lemma unionCols_singleton (s : Fragment) :
    unionCols [s] = dedupFirstAux [] s.cols := by
  simp [unionCols]

lemma nodup_unionCols (frags : List Fragment) : (unionCols frags).Nodup :=
  nodup_dedupFirstAux _ _

lemma sortTS_of_sorted {l : List Nat} (h : List.Sorted (· ≤ ·) l) :
    sortTS l = l :=
  List.Sorted.insertionSort_eq h

lemma filterMap_eq_single {α β : Type} [DecidableEq α] (l : List α) (t : α)
    (g : α → β) (hn : l.Nodup) (ht : t ∈ l) :
    l.filterMap (fun x => if x = t then some (g x) else none) = [g t] := by
  induction l with
  | nil => cases ht
  | cons a as ih =>
    by_cases hat : a = t
    · subst hat
      rw [List.filterMap_cons_some (by rw [if_pos rfl])]
      have hrest : as.filterMap (fun x => if x = a then some (g x) else none) = [] := by
        rw [List.filterMap_eq_nil_iff]
        intro x hx
        have hxa : ¬ x = a := fun he => (List.nodup_cons.1 hn).1 (he ▸ hx)
        rw [if_neg hxa]
      rw [hrest]
    · rw [List.filterMap_cons_none (by rw [if_neg hat])]
      refine ih (List.nodup_cons.1 hn).2 ?_
      rcases List.mem_cons.1 ht with he | h'
      · exact absurd he.symm hat
      · exact h'

lemma reconcile_rows_eq' (frags : List Fragment) :
    (reconcile frags).rows = (tsOf (reconcile frags)).map (fun t =>
      (t, (reconcile frags).cols.map (fun c =>
        (c, (obsMax (obsAt (allRows frags) t c)).getD 0)))) := by
  rw [reconcile_rows_eq, tsOf_reconcile, reconcile_cols]

lemma obsAt_reconcile_self (frags : List Fragment) (t : Nat) (c : String)
    (ht : t ∈ tsOf (reconcile frags)) (hc : c ∈ unionCols frags) :
    obsAt (reconcile frags).rows t c =
      [(obsMax (obsAt (allRows frags) t c)).getD 0] := by
  rw [obsAt, reconcile_rows_eq', List.filterMap_map]
  have hfun : ∀ t' ∈ tsOf (reconcile frags),
      ((fun r : Nat × List (String × Int) =>
          if r.1 = t then r.2.lookup c else none) ∘
        (fun t' => (t', (reconcile frags).cols.map (fun c' =>
          (c', (obsMax (obsAt (allRows frags) t' c')).getD 0))))) t' =
      (fun t' => if t' = t then
          some ((obsMax (obsAt (allRows frags) t' c)).getD 0) else none) t' := by
    intro t' _
    by_cases h : t' = t
    · simp only [Function.comp_apply, if_pos h]
      rw [reconcile_cols, lookup_map_pair c _ _ hc]
    · simp only [Function.comp_apply, if_neg h]
  rw [List.filterMap_congr hfun]
  exact filterMap_eq_single _ t _ (nodup_tsOf_reconcile frags) ht

/-- C4: reconciliation is idempotent — merging a canonical series with
itself as a single-fragment input returns it unchanged. -/
theorem reconcile_idempotent (frags : List Fragment) (s : Fragment)
    (h : s = reconcile frags) : reconcile [s] = s := by
  subst h
  have hcols : unionCols [reconcile frags] = (reconcile frags).cols := by
    rw [unionCols_singleton, reconcile_cols]
    exact dedupFirstAux_eq_self [] _ (fun a _ ha => (List.not_mem_nil a) ha)
      (nodup_unionCols frags)
  have htsfix : sortTS ((allRows [reconcile frags]).map Prod.fst).dedup
      = tsOf (reconcile frags) := by
    rw [allRows_singleton]
    have h1 : (reconcile frags).rows.map Prod.fst = tsOf (reconcile frags) := rfl
    rw [h1, List.Nodup.dedup (nodup_tsOf_reconcile frags)]
    rw [tsOf_reconcile]
    exact sortTS_of_sorted (sortTS_sorted _)
  refine fragment_eq_of ?_ ?_
  · rw [reconcile_cols]
    exact hcols
  · rw [reconcile_rows_eq, htsfix, hcols, allRows_singleton]
    conv_rhs => rw [reconcile_rows_eq' frags]
    refine List.map_congr_left ?_
    intro t ht
    refine congrArg _ ?_
    refine List.map_congr_left ?_
    intro c hc
    rw [obsAt_reconcile_self frags t c ht (reconcile_cols frags ▸ hc)]
    rfl

/-- Witness for C4: the canonical series of the spec's example fragments
reconciles with itself to itself. -/
theorem reconcile_idempotent_witness :
    reconcile [reconcile [exFragA, exFragB]] = reconcile [exFragA, exFragB] :=
  reconcile_idempotent [exFragA, exFragB] (reconcile [exFragA, exFragB]) rfl

lemma updateSeen_of_setEqL {seen cols : List String}
    (h : setEqL cols seen = true) : updateSeen seen cols = seen := by
  rw [updateSeen]
  have h1 : ∀ c ∈ cols, c ∈ seen := ((setEqL_iff _ _).1 h).1
  have hfil : cols.filter (fun c => !seen.contains c) = [] := by
    rw [List.filter_eq_nil_iff]
    intro a ha
    have hm := (contains_eq_mem seen a).2 (h1 a ha)
    simp only [hm, Bool.not_true, Bool.false_eq_true, not_false_eq_true]
  rw [hfil, List.append_nil]

lemma updateSeen_nil (cols : List String) : updateSeen [] cols = cols := by
  rw [updateSeen, List.nil_append, List.filter_eq_self]
  intro a _
  rfl

lemma schemaGuardAux_ok (seen : List String)
    (rest : List (String × Fragment)) :
    (∀ pf ∈ rest, setEqL pf.2.cols seen = true) →
    schemaGuardAux seen rest = .ok () := by
  induction rest with
  | nil => intro _; rfl
  | cons q rs ih =>
    intro hall
    obtain ⟨p, f⟩ := q
    have hpf := hall (p, f) (List.mem_cons_self _ _)
    have hc : ¬((!seen.isEmpty && !setEqL f.cols seen) = true) := by simp [hpf]
    rw [schemaGuardAux, if_neg hc, updateSeen_of_setEqL hpf]
    exact ih (fun q hq => hall q (List.mem_cons_of_mem _ hq))

lemma schemaGuardAux_error (seen : List String) (hne : seen ≠ [])
    (rest : List (String × Fragment)) :
    (∃ pf ∈ rest, setEqL pf.2.cols seen = false) →
    ∃ e pf, pf ∈ rest ∧ setEqL pf.2.cols seen = false ∧
      schemaGuardAux seen rest = .error e ∧
      e.expected = seen ∧ e.actual = pf.2.cols ∧ e.source = pf.1 := by
  induction rest with
  | nil => rintro ⟨pf, hpf, _⟩; cases hpf
  | cons q rs ih =>
    intro hex
    obtain ⟨p, f⟩ := q
    by_cases hq : setEqL f.cols seen = true
    · have hc : ¬((!seen.isEmpty && !setEqL f.cols seen) = true) := by simp [hq]
      have hex' : ∃ pf ∈ rs, setEqL pf.2.cols seen = false := by
        obtain ⟨pf, hpf, hfalse⟩ := hex
        rcases List.mem_cons.1 hpf with he | hmem
        · exfalso
          rw [he] at hfalse
          rw [hq] at hfalse
          cases hfalse
        · exact ⟨pf, hmem, hfalse⟩
      obtain ⟨e, pf, hmem, hfalse, heq, hexp, hact, hsrc⟩ := ih hex'
      refine ⟨e, pf, List.mem_cons_of_mem _ hmem, hfalse, ?_, hexp, hact, hsrc⟩
      rw [schemaGuardAux, if_neg hc, updateSeen_of_setEqL hq, heq]
    · have hqf : setEqL f.cols seen = false := by
        cases hb : setEqL f.cols seen
        · rfl
        · exact absurd hb hq
      have hcond : (!seen.isEmpty && !setEqL f.cols seen) = true := by
        simp [hqf, List.isEmpty_eq_false.2 hne]
      refine ⟨⟨seen, f.cols, p⟩, (p, f), List.mem_cons_self _ _, hqf, ?_, rfl, rfl, rfl⟩
      rw [schemaGuardAux, if_pos hcond]

/-- C5 (amended): provided the first fragment's column set is non-empty,
the schema gate passes — and the merge produces a series — exactly when
every fragment's column set is set-equal to the first one's; on a
mismatch it fails with the expected column set (the first fragment's),
the offending fragment's actual columns and its source path, producing no
series.  (The non-emptiness proviso is forced:
`if column_names_seen and ...` skips the comparison while the running set
is empty, see `schema_guard_gate_counterexample`.) -/
theorem schema_guard_gate (p₀ : String) (f₀ : Fragment)
    (rest : List (String × Fragment)) (hne : f₀.cols ≠ []) :
    ((∀ pf ∈ (p₀, f₀) :: rest, setEqL pf.2.cols f₀.cols = true) →
      ∃ s, processFragments ((p₀, f₀) :: rest) = .ok s) ∧
    ((∃ pf ∈ (p₀, f₀) :: rest, setEqL pf.2.cols f₀.cols = false) →
      ∃ e pf, pf ∈ (p₀, f₀) :: rest ∧ setEqL pf.2.cols f₀.cols = false ∧
        processFragments ((p₀, f₀) :: rest) = .error e ∧
        e.expected = f₀.cols ∧ e.actual = pf.2.cols ∧ e.source = pf.1) := by
  have hguard : schemaGuard ((p₀, f₀) :: rest) = schemaGuardAux f₀.cols rest := by
    have hc : ¬((!(List.isEmpty ([] : List String)) && !setEqL f₀.cols []) = true) := by
      simp
    rw [schemaGuard, schemaGuardAux, if_neg hc, updateSeen_nil]
  constructor
  · intro hall
    have hok := schemaGuardAux_ok f₀.cols rest
      (fun pf hpf => hall pf (List.mem_cons_of_mem _ hpf))
    refine ⟨reconcile (((p₀, f₀) :: rest).map Prod.snd), ?_⟩
    rw [processFragments, hguard, hok]
  · intro hex
    have hex' : ∃ pf ∈ rest, setEqL pf.2.cols f₀.cols = false := by
      obtain ⟨pf, hpf, hfalse⟩ := hex
      rcases List.mem_cons.1 hpf with he | hmem
      · exfalso
        rw [he] at hfalse
        rw [setEqL_refl] at hfalse
        cases hfalse
      · exact ⟨pf, hmem, hfalse⟩
    obtain ⟨e, pf, hmem, hfalse, heq, hexp, hact, hsrc⟩ :=
      schemaGuardAux_error f₀.cols hne rest hex'
    refine ⟨e, pf, List.mem_cons_of_mem _ hmem, hfalse, ?_, hexp, hact, hsrc⟩
    rw [processFragments, hguard, heq]

/-- A loadable fragment with no counter columns (a CSV holding only the
`time_iso8601` index column). -/
def exNoColsFrag : Fragment := ⟨[], [(20201201, [])]⟩

/-- A fragment whose column set differs from `exNoColsFrag`'s. -/
def exViewsFrag : Fragment :=
  ⟨["views_total"], [(20201201, [("views_total", 3)])]⟩

/-- Counterexample to C5 as stated: when the first fragment's column set
is empty, `column_names_seen` stays falsy, so the check
`if column_names_seen and set(df.columns) != column_names_seen` is
skipped — a second fragment whose column set is NOT set-equal to the
first one's passes the gate, and a series is produced instead of a
`SchemaMismatchError`. -/
theorem schema_guard_gate_counterexample :
    setEqL exViewsFrag.cols exNoColsFrag.cols = false ∧
    processFragments [("a.csv", exNoColsFrag), ("b.csv", exViewsFrag)] =
      .ok (reconcile [exNoColsFrag, exViewsFrag]) :=
  ⟨by decide, rfl⟩

/-- Witness for the amended C5: a mismatching second fragment is reported
with the expected column set, its own column set and its source path. -/
theorem schema_guard_gate_witness :
    exViewsFrag.cols ≠ [] ∧
    (∃ e pf, pf ∈ [("a.csv", exViewsFrag), ("b.csv", exNoColsFrag)] ∧
      setEqL pf.2.cols exViewsFrag.cols = false ∧
      processFragments [("a.csv", exViewsFrag), ("b.csv", exNoColsFrag)] =
        .error e ∧
      e.expected = exViewsFrag.cols ∧ e.actual = pf.2.cols ∧
      e.source = pf.1) :=
  ⟨by decide,
   (schema_guard_gate "a.csv" exViewsFrag [("b.csv", exNoColsFrag)]
     (by decide)).2 (by decide)⟩

/-- C6: with zero fragment sources, the run fails (argparse rejects an
empty `csvpath`, `nargs="+"`) before the output-directory handling and
before any read: no canonical series, and the filesystem state is
untouched. -/
theorem empty_input_error (parseTime : String → Option Nat) (st : RunState) :
    runMain parseTime [] st = (.error .emptyInput, st) := rfl

lemma parseArgsFS_error_eq (st : RunState) (e : RunError)
    (h : parseArgsFS st = .error e) : e = .outPathNotDir := by
  obtain ⟨od, cw, rp⟩ := st
  cases od with
  | file =>
    injection h with h2
    exact h2.symm
  | absent => cases h
  | dir cs => cases h

lemma parseArgsFS_ok_eq (st st1 : RunState)
    (h : parseArgsFS st = .ok st1) : st1 = { st with outDir := .dir [] } := by
  obtain ⟨od, cw, rp⟩ := st
  cases od with
  | file => cases h
  | absent =>
    injection h with h2
    exact h2.symm
  | dir cs =>
    injection h with h2
    exact h2.symm

lemma parseArgsFS_ok_of_not_file (st : RunState) (h : st.outDir ≠ .file) :
    parseArgsFS st = .ok { st with outDir := .dir [] } := by
  obtain ⟨od, cw, rp⟩ := st
  cases od with
  | file => exact absurd rfl h
  | absent => rfl
  | dir cs => rfl

lemma mainAfterArgs_cases (parseTime : String → Option Nat)
    (docs : List (String × RawDoc)) (st : RunState) :
    (mainAfterArgs parseTime docs st).2 = st ∨
    ∃ agg, mainAfterArgs parseTime docs st = (.ok agg,
      { st with chartWritten := true, reportWritten := true,
                outDir := .dir ["report.md", "report.html", "resources"] }) := by
  rcases hl : loadLoop parseTime [] [] docs with e | frags
  · left
    simp only [mainAfterArgs, hl]
  · rcases h1 : dropColumns (reconcile frags) ["clones_unique", "clones_total"]
      with e | d1
    · left
      simp only [mainAfterArgs, hl, h1]
    · rcases h2 : dropColumns (reconcile frags) ["views_unique", "views_total"]
        with e | d2
      · left
        simp only [mainAfterArgs, hl, h1, h2]
      · right
        refine ⟨reconcile frags, ?_⟩
        simp only [mainAfterArgs, hl, h1, h2]

lemma mainAfterArgs_state_of_error (parseTime : String → Option Nat)
    (docs : List (String × RawDoc)) (st : RunState) (e : RunError)
    (h : (mainAfterArgs parseTime docs st).1 = .error e) :
    (mainAfterArgs parseTime docs st).2 = st := by
  rcases mainAfterArgs_cases parseTime docs st with h2 | ⟨agg, h2⟩
  · exact h2
  · rw [h2] at h
    cases h

/-- C7 (amended): when the loader or the schema guard reports an error,
the run terminates with that error and writes neither the chart nor the
report files; the output-directory path, however, has already been
replaced by a freshly created empty directory during argument parsing, so
a previous run's output there is destroyed rather than left intact (see
`run_failure_alters_outdir` for the part of the original claim that
fails). -/
theorem run_failure_no_partial_output (parseTime : String → Option Nat)
    (docs : List (String × RawDoc)) (st st' : RunState) (e : RunError)
    (h : runMain parseTime docs st = (.error e, st'))
    (he : e.isLoadOrSchema = true) :
    st'.chartWritten = st.chartWritten ∧
    st'.reportWritten = st.reportWritten ∧
    st'.outDir = .dir [] := by
  rw [runMain] at h
  by_cases hd : docs.isEmpty
  · rw [if_pos hd] at h
    rw [Prod.mk.injEq] at h
    obtain ⟨ha, _⟩ := h
    injection ha with hc
    rw [← hc] at he
    cases he
  · rw [if_neg hd] at h
    cases hp : parseArgsFS st with
    | error e2 =>
      rw [hp] at h
      dsimp only at h
      rw [Prod.mk.injEq] at h
      obtain ⟨ha, _⟩ := h
      injection ha with hc
      rw [parseArgsFS_error_eq st e2 hp] at hc
      rw [← hc] at he
      cases he
    | ok st1 =>
      rw [hp] at h
      dsimp only at h
      have hfst : (mainAfterArgs parseTime docs st1).1 = .error e := by rw [h]
      have hsnd : st' = st1 := by
        have h2 := mainAfterArgs_state_of_error parseTime docs st1 e hfst
        rw [h] at h2
        exact h2
      rw [hsnd, parseArgsFS_ok_eq st st1 hp]
      exact ⟨rfl, rfl, rfl⟩

/-- A total timestamp parser for concrete runs. -/
def exParseTime : String → Option Nat := fun _ => some 20201201

/-- A raw views-only CSV document. -/
def exDocViews : RawDoc := ⟨["views_total"], [⟨"2020-12-01", [5]⟩]⟩

/-- A raw clones-only CSV document (column set differs from
`exDocViews`). -/
def exDocClones : RawDoc := ⟨["clones_total"], [⟨"2020-12-01", [7]⟩]⟩

/-- A batch whose two documents have mismatching column sets. -/
def exMismatchDocs : List (String × RawDoc) :=
  [("a.csv", exDocViews), ("b.csv", exDocClones)]

/-- A starting state in which the output directory holds a previous
run's report. -/
def exStOld : RunState := ⟨.dir ["2020-12-01_report.md"], false, false⟩

/-- Counterexample to C7 as stated: a run that fails the schema check has
nevertheless altered the output directory — the previous run's report is
gone and an empty directory stands in its place. -/
theorem run_failure_alters_outdir :
    runMain exParseTime exMismatchDocs exStOld =
      (.error (.schema ⟨["views_total"], ["clones_total"], "b.csv"⟩),
       ⟨.dir [], false, false⟩) ∧
    (runMain exParseTime exMismatchDocs exStOld).2.outDir ≠ exStOld.outDir :=
  ⟨rfl, by decide⟩

/-- Witness for the amended C7 on the concrete schema-failure run. -/
theorem run_failure_no_partial_output_witness :
    RunError.isLoadOrSchema
      (.schema ⟨["views_total"], ["clones_total"], "b.csv"⟩) = true ∧
    ((⟨.dir [], false, false⟩ : RunState).chartWritten = exStOld.chartWritten ∧
     (⟨.dir [], false, false⟩ : RunState).reportWritten = exStOld.reportWritten ∧
     (⟨.dir [], false, false⟩ : RunState).outDir = .dir []) :=
  ⟨rfl,
   run_failure_no_partial_output exParseTime exMismatchDocs exStOld
     ⟨.dir [], false, false⟩
     (.schema ⟨["views_total"], ["clones_total"], "b.csv"⟩) rfl rfl⟩

lemma loadRows_error (parseTime : String → Option Nat) (src : String)
    (cols : List String) (rows : List RawRow)
    (h : ∃ r ∈ rows, parseTime r.time = none) :
    ∃ e, loadRows parseTime src cols rows = .error e ∧ e.source = src ∧
      ∃ r ∈ rows, parseTime r.time = none ∧ e.badTime = r.time := by
  induction rows with
  | nil =>
    obtain ⟨r, hr, _⟩ := h
    cases hr
  | cons r rs ih =>
    cases hp : parseTime r.time with
    | none =>
      refine ⟨⟨src, r.time⟩, ?_, rfl, r, List.mem_cons_self _ _, hp, rfl⟩
      rw [loadRows, hp]
    | some t =>
      have h' : ∃ r' ∈ rs, parseTime r'.time = none := by
        obtain ⟨r', hr', hn⟩ := h
        rcases List.mem_cons.1 hr' with he | hmem
        · rw [he, hp] at hn
          cases hn
        · exact ⟨r', hmem, hn⟩
      obtain ⟨e, heq, hsrc, r', hr', hn, hbt⟩ := ih h'
      refine ⟨e, ?_, hsrc, r', List.mem_cons_of_mem _ hr', hn, hbt⟩
      rw [loadRows, hp, heq]

lemma loadFragment_error (parseTime : String → Option Nat) (src : String)
    (d : RawDoc) (h : ∃ r ∈ d.rows, parseTime r.time = none) :
    ∃ e, loadFragment parseTime src d = .error e ∧ e.source = src ∧
      ∃ r ∈ d.rows, parseTime r.time = none ∧ e.badTime = r.time := by
  obtain ⟨e, heq, hsrc, hex⟩ := loadRows_error parseTime src d.cols d.rows h
  refine ⟨e, ?_, hsrc, hex⟩
  rw [loadFragment, heq]

lemma loadLoop_error_of_bad (parseTime : String → Option Nat) (src : String)
    (d : RawDoc) (hbad : ∃ r ∈ d.rows, parseTime r.time = none)
    (pre : List (String × RawDoc)) :
    ∀ (post : List (String × RawDoc)) (seen : List String)
      (acc : List Fragment),
      ∃ e', loadLoop parseTime seen acc (pre ++ (src, d) :: post) = .error e' := by
  induction pre with
  | nil =>
    intro post seen acc
    obtain ⟨e, heq, -, -⟩ := loadFragment_error parseTime src d hbad
    refine ⟨.parse e, ?_⟩
    rw [List.nil_append, loadLoop, heq]
  | cons pd pre ih =>
    intro post seen acc
    obtain ⟨p, d'⟩ := pd
    rw [List.cons_append]
    rcases hl : loadFragment parseTime p d' with e2 | f
    · exact ⟨.parse e2, by rw [loadLoop, hl]⟩
    · by_cases hc : (!seen.isEmpty && !setEqL f.cols seen) = true
      · refine ⟨.schema ⟨seen, f.cols, p⟩, ?_⟩
        rw [loadLoop, hl]
        dsimp only
        rw [if_pos hc]
      · obtain ⟨e', heq⟩ := ih post (updateSeen seen f.cols) (f :: acc)
        refine ⟨e', ?_⟩
        rw [loadLoop, hl]
        dsimp only
        rw [if_neg hc, heq]

/-- C8: a fragment source containing a row whose timestamp does not parse
makes the loader fail with a `ParseError` carrying the source path and
the offending row's raw timestamp, and any run whose input batch contains
that source terminates in an error — no canonical series is produced. -/
theorem loader_parse_error (parseTime : String → Option Nat) (src : String)
    (d : RawDoc) (h : ∃ r ∈ d.rows, parseTime r.time = none) :
    (∃ e, loadFragment parseTime src d = .error e ∧ e.source = src ∧
      ∃ r ∈ d.rows, parseTime r.time = none ∧ e.badTime = r.time) ∧
    (∀ (pre post : List (String × RawDoc)) (st : RunState),
      ∃ e', (runMain parseTime (pre ++ (src, d) :: post) st).1 = .error e') := by
  refine ⟨loadFragment_error parseTime src d h, ?_⟩
  intro pre post st
  have hcond : ¬((pre ++ (src, d) :: post).isEmpty = true) := by simp
  rw [runMain, if_neg hcond]
  cases hp : parseArgsFS st with
  | error e2 => exact ⟨e2, rfl⟩
  | ok st1 =>
    dsimp only
    obtain ⟨e', heq⟩ := loadLoop_error_of_bad parseTime src d h pre post [] []
    refine ⟨e', ?_⟩
    rw [mainAfterArgs, heq]

/-- A raw document whose second row's timestamp does not parse. -/
def exBadDoc : RawDoc :=
  ⟨["views_total"], [⟨"2020-12-01", [5]⟩, ⟨"not a date", [6]⟩]⟩

/-- A parser accepting only the literal date `2020-12-01`. -/
def exParseTimeStrict : String → Option Nat :=
  fun s => if s == "2020-12-01" then some 20201201 else none

/-- Witness for C8 on a concrete malformed document. -/
theorem loader_parse_error_witness :
    (∃ r ∈ exBadDoc.rows, exParseTimeStrict r.time = none) ∧
    ((∃ e, loadFragment exParseTimeStrict "bad.csv" exBadDoc = .error e ∧
        e.source = "bad.csv" ∧
        ∃ r ∈ exBadDoc.rows, exParseTimeStrict r.time = none ∧
          e.badTime = r.time) ∧
     (∀ (pre post : List (String × RawDoc)) (st : RunState),
       ∃ e', (runMain exParseTimeStrict
         (pre ++ ("bad.csv", exBadDoc) :: post) st).1 = .error e')) :=
  ⟨by decide,
   loader_parse_error exParseTimeStrict "bad.csv" exBadDoc (by decide)⟩

/-- C9: on a non-empty batch, when the configured output path is an
existing directory, `parse_args` removes it and re-creates it empty; the
whole run factors through that emptied state before any fragment source
is read, so a run failing the parse or schema check has already destroyed
the previous run's output-directory contents. -/
theorem outdir_cleared_during_parse_args (parseTime : String → Option Nat)
    (docs : List (String × RawDoc)) (st : RunState) (cs : List String)
    (hne : docs ≠ []) (hdir : st.outDir = .dir cs) :
    parseArgsFS st = .ok { st with outDir := .dir [] } ∧
    runMain parseTime docs st =
      mainAfterArgs parseTime docs { st with outDir := .dir [] } ∧
    (∀ e, (runMain parseTime docs st).1 = .error e →
      e.isLoadOrSchema = true →
      (runMain parseTime docs st).2.outDir = .dir []) := by
  obtain ⟨od, cw, rp⟩ := st
  have hdir' : od = .dir cs := hdir
  subst hdir'
  have hpa : parseArgsFS ⟨.dir cs, cw, rp⟩ = .ok ⟨.dir [], cw, rp⟩ := rfl
  have hcond : ¬((docs.isEmpty) = true) := by
    rw [List.isEmpty_eq_false.2 hne]
    simp
  have hrm : runMain parseTime docs ⟨.dir cs, cw, rp⟩ =
      mainAfterArgs parseTime docs ⟨.dir [], cw, rp⟩ := by
    rw [runMain, if_neg hcond, hpa]
  refine ⟨hpa, hrm, ?_⟩
  intro e h _he
  rw [hrm] at h ⊢
  rw [mainAfterArgs_state_of_error parseTime docs _ e h]

/-- Witness for C9 on the concrete schema-failure run. -/
theorem outdir_cleared_during_parse_args_witness :
    (exMismatchDocs ≠ [] ∧ exStOld.outDir = .dir ["2020-12-01_report.md"]) ∧
    (parseArgsFS exStOld = .ok { exStOld with outDir := .dir [] } ∧
     runMain exParseTime exMismatchDocs exStOld =
       mainAfterArgs exParseTime exMismatchDocs
         { exStOld with outDir := .dir [] } ∧
     (∀ e, (runMain exParseTime exMismatchDocs exStOld).1 = .error e →
       e.isLoadOrSchema = true →
       (runMain exParseTime exMismatchDocs exStOld).2.outDir = .dir [])) :=
  ⟨⟨by decide, rfl⟩,
   outdir_cleared_during_parse_args exParseTime exMismatchDocs exStOld
     ["2020-12-01_report.md"] (by decide) rfl⟩

lemma dropColumns_error_of_missing (s : Fragment) (cs : List String)
    (h : ¬(cs.all (fun c => s.cols.contains c) = true)) :
    ∃ c, dropColumns s cs = .error (.missingColumn c) ∧
      s.cols.contains c = false := by
  have hex : ∃ c ∈ cs, (!s.cols.contains c) = true := by
    rw [List.all_eq_true] at h
    push_neg at h
    obtain ⟨c, hc, hnc⟩ := h
    refine ⟨c, hc, ?_⟩
    cases hcc : s.cols.contains c with
    | false => rfl
    | true => exact absurd hcc hnc
  have hsome := List.find?_isSome.2 hex
  obtain ⟨c, hc⟩ := Option.isSome_iff_exists.1 hsome
  refine ⟨c, ?_, ?_⟩
  · rw [dropColumns, if_neg h, hc]
    rfl
  · have hfc := List.find?_some hc
    rw [Bool.not_eq_eq_eq_not, Bool.not_true] at hfc
    exact hfc

/-- C10: the presentation step hardcodes the four column names
`clones_unique`, `clones_total`, `views_unique`, `views_total` in its
`df.drop(columns=...)` calls; a batch that loads and passes the schema
check but whose shared column set lacks any of the four makes the run
fail right after the merge with a `KeyError` (`missingColumn`) instead of
generalizing — no chart and no report are written. -/
theorem presentation_requires_hardcoded_columns
    (parseTime : String → Option Nat) (docs : List (String × RawDoc))
    (st : RunState) (frags : List Fragment)
    (hdocs : docs ≠ []) (hout : st.outDir ≠ .file)
    (hload : loadLoop parseTime [] [] docs = .ok frags)
    (hmiss : ¬((["clones_unique", "clones_total", "views_unique",
        "views_total"].all (fun c => (reconcile frags).cols.contains c)) = true)) :
    ∃ c, (reconcile frags).cols.contains c = false ∧
      runMain parseTime docs st =
        (.error (.missingColumn c), { st with outDir := .dir [] }) := by
  have hpa := parseArgsFS_ok_of_not_file st hout
  have hcond : ¬(docs.isEmpty = true) := by
    rw [List.isEmpty_eq_false.2 hdocs]
    simp
  have hall4 :
      (["clones_unique", "clones_total", "views_unique", "views_total"].all
        (fun c => (reconcile frags).cols.contains c)) =
      (["clones_unique", "clones_total"].all
         (fun c => (reconcile frags).cols.contains c) &&
       ["views_unique", "views_total"].all
         (fun c => (reconcile frags).cols.contains c)) := by
    simp [List.all_cons, List.all_nil, Bool.and_assoc]
  by_cases h1 : (["clones_unique", "clones_total"].all
      (fun c => (reconcile frags).cols.contains c)) = true
  · have h2 : ¬((["views_unique", "views_total"].all
        (fun c => (reconcile frags).cols.contains c)) = true) := by
      intro h2
      apply hmiss
      rw [hall4, h1, h2]
      rfl
    obtain ⟨c, hceq, hcf⟩ := dropColumns_error_of_missing (reconcile frags) _ h2
    have hdrop1 : ∃ d1, dropColumns (reconcile frags)
        ["clones_unique", "clones_total"] = .ok d1 := by
      rw [dropColumns, if_pos h1]
      exact ⟨_, rfl⟩
    obtain ⟨d1, hd1⟩ := hdrop1
    refine ⟨c, hcf, ?_⟩
    rw [runMain, if_neg hcond, hpa]
    dsimp only
    rw [mainAfterArgs, hload]
    dsimp only
    rw [hd1]
    dsimp only
    rw [hceq]
  · obtain ⟨c, hceq, hcf⟩ := dropColumns_error_of_missing (reconcile frags) _ h1
    refine ⟨c, hcf, ?_⟩
    rw [runMain, if_neg hcond, hpa]
    dsimp only
    rw [mainAfterArgs, hload]
    dsimp only
    rw [hceq]

/-- The fragment loaded from `exDocViews`. -/
def exLoadedViews : Fragment :=
  ⟨["views_total"], [(20201201, [("views_total", 5)])]⟩

/-- A single-document batch carrying only a `views_total` column. -/
def exViewsDocs : List (String × RawDoc) := [("a.csv", exDocViews)]

/-- Witness for C10: a schema-consistent batch with only a `views_total`
column fails after the merge with a `missingColumn` error. -/
theorem presentation_requires_hardcoded_columns_witness :
    (exViewsDocs ≠ [] ∧ exStOld.outDir ≠ .file ∧
     loadLoop exParseTime [] [] exViewsDocs = .ok [exLoadedViews] ∧
     ¬((["clones_unique", "clones_total", "views_unique", "views_total"].all
         (fun c => (reconcile [exLoadedViews]).cols.contains c)) = true)) ∧
    (∃ c, (reconcile [exLoadedViews]).cols.contains c = false ∧
      runMain exParseTime exViewsDocs exStOld =
        (.error (.missingColumn c), { exStOld with outDir := .dir [] })) :=
  ⟨⟨by decide, by decide, rfl, by decide⟩,
   presentation_requires_hardcoded_columns exParseTime exViewsDocs exStOld
     [exLoadedViews] (by decide) (by decide) rfl (by decide)⟩

end GRS
